import Mathlib

/-!
Verification of the wasmlanche SDK guest runtime (pointer codec, guest
allocator, host bridge and write-back state cache) against its
natural-language specification.

The Rust sources embedded here:
  * `x/programs/rust/wasmlanche_sdk/src/memory.rs` — pointer codec
    (`to_smart_ptr`, `split_smart_ptr`) and guest allocator (`alloc`,
    `allocate`);
  * `x/programs/rust/wasmlanche-sdk/src/state.rs` — state cache
    (`State::{store, get, delete, flush}`) and host bridge
    (`host::{put_bytes, get_bytes, delete_bytes}`).

Machine integers are embedded as `Nat`/`Int` with explicit wrap-around
(`% 2^64`) where the Rust code can overflow; an `i64` value is recovered
from its 64-bit two's-complement bit pattern by `int64OfNat`.
-/

namespace Wasm

/-- Error enum of the SDK. `state.rs` declares `Error` and `memory.rs` uses
the identically-shaped `StateError` of its crate; both are embedded as this
one inductive. Payloads (`Other(String)` etc.) are kept. -/
inductive StateError
  | Other (msg : String)
  | InvalidBytes
  | InvalidByteLength (n : Nat)
  | InvalidTag (b : Nat)
  | Write
  | Read
  | Serialization
  | Deserialization
  | IntegerConversion
  | Delete
  deriving DecidableEq, Repr

/-- Value of an `i64` whose unsigned 64-bit bit pattern is `n % 2^64`
(two's complement). -/
def int64OfNat (n : Nat) : Int :=
  if n % 2 ^ 64 < 2 ^ 63 then ((n % 2 ^ 64 : Nat) : Int)
  else ((n % 2 ^ 64 : Nat) : Int) - 2 ^ 64

/-- The Rust constant `u32::MAX`. -/
def u32MAX : Nat := 2 ^ 32 - 1

/-- memory.rs `to_smart_ptr(arg: &[u8]) -> Result<SmartPtr, StateError>`,
as a function of the slice's address `ptr` and length `len` (both `usize`,
embedded as `Nat`). The source checks
`ptr > u32::MAX as usize || len > u32::MAX as usize` and otherwise returns
`i64::from(ptr as u32) | (i64::from(len as u32) << 32)`; the `<< 32` on
`i64` silently discards high bits, hence the `% 2^64` wrap on the bit
pattern before reading it back as an `i64` value. -/
def to_smart_ptr (ptr len : Nat) : Except StateError Int :=
  if ptr > u32MAX ∨ len > u32MAX then
    Except.error StateError.IntegerConversion
  else
    Except.ok (int64OfNat ((ptr % 2 ^ 32) ||| (((len % 2 ^ 32) <<< 32) % 2 ^ 64)))

/-- memory.rs `split_smart_ptr(arg: SmartPtr) -> (i64, usize)`. The source
runs `assert!(arg >= 0)` — embedded as returning `none` (panic) for a
negative argument — then returns `(arg & 0xFFFF_FFFF, (arg >> 32) as usize)`
(as the pair `(ptr, len)`). For a non-negative `i64` both bit operations
agree with the `Nat` operations on `arg.toNat`. -/
def split_smart_ptr (arg : Int) : Option (Int × Nat) :=
  if arg < 0 then none
  else some (((arg.toNat &&& u32MAX : Nat) : Int), arg.toNat >>> 32)

/-- memory.rs `alloc(len: usize) -> *mut u8`. The address handed out by the
platform allocator (`Vec::with_capacity`) is not computable from `len`, so
it is a parameter `addr`; the body then runs
`assert!(i64::try_from(ptr as u64).is_ok())` — process abort, embedded as
`none` — and otherwise returns the pointer. `i64::try_from(u64)` succeeds
exactly on values `≤ i64::MAX = 2^63 - 1`. No bound involving `len` is
checked. -/
def alloc (len : Nat) (addr : Nat) : Option Nat :=
  if addr ≤ 2 ^ 63 - 1 then some addr else none

/-- memory.rs `allocate(len: usize) -> *mut u8`, which just calls `alloc`. -/
def allocate (len : Nat) (addr : Nat) : Option Nat :=
  alloc len addr

/-- Helper: under the `u32` bounds, `to_smart_ptr` succeeds and returns the
`i64` whose bit pattern is `ptr ||| (len <<< 32)`. -/
theorem to_smart_ptr_ok (a l : Nat) (ha : a ≤ u32MAX) (hl : l ≤ u32MAX) :
    to_smart_ptr a l = Except.ok (int64OfNat (a ||| (l <<< 32))) := by
  have h32 : (2 : Nat) ^ 32 = 4294967296 := by norm_num
  have hu : u32MAX = 4294967295 := by norm_num [u32MAX]
  have ha' : a < 2 ^ 32 := by omega
  have hl' : l < 2 ^ 32 := by omega
  have hno : ¬(a > u32MAX ∨ l > u32MAX) := by omega
  have hshift : (l <<< 32) % 2 ^ 64 = l <<< 32 := by
    apply Nat.mod_eq_of_lt
    rw [Nat.shiftLeft_eq]
    calc l * 2 ^ 32 < 2 ^ 32 * 2 ^ 32 := by
          exact Nat.mul_lt_mul_of_lt_of_le hl' (Nat.le_refl _) (by norm_num)
      _ = 2 ^ 64 := by norm_num
  rw [to_smart_ptr, if_neg hno, Nat.mod_eq_of_lt ha', Nat.mod_eq_of_lt hl', hshift]

/-- Helper: masking the packed word with `2^32 - 1` recovers the address. -/
theorem or_shl_and_mask (a l : Nat) (ha : a < 2 ^ 32) :
    (a ||| (l <<< 32)) &&& (2 ^ 32 - 1) = a := by
  apply Nat.eq_of_testBit_eq
  intro i
  simp only [Nat.testBit_and, Nat.testBit_or, Nat.testBit_shiftLeft,
    Nat.testBit_two_pow_sub_one]
  by_cases h : i < 32
  · have h32 : ¬(i ≥ 32) := by omega
    simp [h, h32]
  · have hbit : a.testBit i = false :=
      Nat.testBit_lt_two_pow
        (Nat.lt_of_lt_of_le ha (Nat.pow_le_pow_right (by norm_num) (by omega)))
    simp [h, hbit]

/-- Helper: shifting the packed word right by 32 recovers the length. -/
theorem or_shl_shr (a l : Nat) (ha : a < 2 ^ 32) :
    (a ||| (l <<< 32)) >>> 32 = l := by
  apply Nat.eq_of_testBit_eq
  intro i
  simp only [Nat.testBit_shiftRight, Nat.testBit_or, Nat.testBit_shiftLeft]
  have hbit : a.testBit (32 + i) = false :=
    Nat.testBit_lt_two_pow
      (Nat.lt_of_lt_of_le ha (Nat.pow_le_pow_right (by norm_num) (by omega)))
  have hge : 32 + i ≥ 32 := by omega
  simp [hbit, hge, Nat.add_sub_cancel_left]

/-- C4 fails as stated: at address `0` and length `2^31` (both within the
32-bit bounds) the encoder wraps to the negative word `-2^63`, on which the
decoder's `assert!(arg >= 0)` panics instead of recovering `(0, 2^31)`. -/
theorem C4_counterexample :
    (2 ^ 31 : Nat) ≤ u32MAX ∧
    to_smart_ptr 0 (2 ^ 31) = Except.ok (-(2 ^ 63 : Int)) ∧
    split_smart_ptr (-(2 ^ 63 : Int)) = none := by
  refine ⟨by norm_num [u32MAX], ?_, ?_⟩
  · rfl
  · rfl

/-- C4 (amended): for every address `a ≤ 2^32 - 1` and length
`l ≤ 2^31 - 1` (one bit less than claimed, so that the packed word stays a
non-negative `i64`), `split_smart_ptr` applied to the result of
`to_smart_ptr` recovers exactly `(a, l)`. -/
theorem C4_roundtrip (a l : Nat) (ha : a ≤ u32MAX) (hl : l ≤ 2 ^ 31 - 1) :
    ∃ w : Int, to_smart_ptr a l = Except.ok w ∧
      split_smart_ptr w = some ((a : Int), l) := by
  have h32 : (2 : Nat) ^ 32 = 4294967296 := by norm_num
  have hu : u32MAX = 4294967295 := by norm_num [u32MAX]
  have ha' : a < 2 ^ 32 := by omega
  have hl32 : l ≤ u32MAX := by omega
  have hl' : l <<< 32 < 2 ^ 63 := by
    rw [Nat.shiftLeft_eq]
    calc l * 2 ^ 32 < 2 ^ 31 * 2 ^ 32 := by
          refine Nat.mul_lt_mul_of_lt_of_le ?_ (Nat.le_refl _) (by norm_num)
          omega
      _ = 2 ^ 63 := by norm_num
  have hw : a ||| (l <<< 32) < 2 ^ 63 :=
    Nat.or_lt_two_pow (by omega) hl'
  have hw64 : a ||| (l <<< 32) < 2 ^ 64 := by
    have : (2 : Nat) ^ 63 < 2 ^ 64 := by norm_num
    omega
  refine ⟨int64OfNat (a ||| (l <<< 32)), to_smart_ptr_ok a l ha hl32, ?_⟩
  have hval : int64OfNat (a ||| (l <<< 32)) = ((a ||| (l <<< 32) : Nat) : Int) := by
    rw [int64OfNat, Nat.mod_eq_of_lt hw64, if_pos (by omega)]
  rw [hval, split_smart_ptr, if_neg (Int.not_lt.mpr (Int.natCast_nonneg _)),
    Int.toNat_natCast]
  have hmask : (a ||| (l <<< 32)) &&& u32MAX = a := by
    rw [u32MAX]; exact or_shl_and_mask a l ha'
  rw [hmask, or_shl_shr a l ha']

/-- C5: `to_smart_ptr` fails with `IntegerConversion` exactly when the
address or the length exceeds `2^32 - 1`, and otherwise returns the `i64`
whose 64-bit bit pattern is the word `a ||| (l <<< 32)`. -/
theorem C5_encode_boundary (a l : Nat) :
    (to_smart_ptr a l = Except.error StateError.IntegerConversion ↔
      a > u32MAX ∨ l > u32MAX) ∧
    (a ≤ u32MAX → l ≤ u32MAX →
      to_smart_ptr a l = Except.ok (int64OfNat (a ||| (l <<< 32)))) := by
  constructor
  · constructor
    · intro h
      by_contra hno
      rw [to_smart_ptr, if_neg hno] at h
      exact Except.noConfusion h
    · intro h
      rw [to_smart_ptr, if_pos h]
  · intro ha hl
    exact to_smart_ptr_ok a l ha hl

/-- C5 witness: concrete evaluation at `a = 4096`, `l = 10`. -/
theorem C5_witness :
    (4096 : Nat) ≤ u32MAX ∧ (10 : Nat) ≤ u32MAX ∧
    (to_smart_ptr 4096 10 = Except.error StateError.IntegerConversion ↔
      4096 > u32MAX ∨ 10 > u32MAX) ∧
    to_smart_ptr 4096 10 = Except.ok (int64OfNat (4096 ||| (10 <<< 32))) := by
  refine ⟨by norm_num [u32MAX], by norm_num [u32MAX], ?_, ?_⟩
  · exact (C5_encode_boundary 4096 10).1
  · exact (C5_encode_boundary 4096 10).2 (by norm_num [u32MAX]) (by norm_num [u32MAX])

/-- C4 witness: concrete round trip at `a = 4096`, `l = 10`. -/
theorem C4_witness :
    (4096 : Nat) ≤ u32MAX ∧ (10 : Nat) ≤ 2 ^ 31 - 1 ∧
    ∃ w : Int, to_smart_ptr 4096 10 = Except.ok w ∧
      split_smart_ptr w = some ((4096 : Int), 10) :=
  ⟨by norm_num [u32MAX], by norm_num,
    C4_roundtrip 4096 10 (by norm_num [u32MAX]) (by norm_num)⟩

/-- C8 fails as stated: with length `2^32` (exceeding the codec's 32-bit
field) and a reserved address `2^32` (also exceeding it), `alloc` does not
abort — it returns the address. The only abort in the source is
`assert!(i64::try_from(ptr as u64).is_ok())`, a 63-bit check on the address
alone; the length is never compared against the 32-bit fields. -/
theorem C8_counterexample :
    (2 ^ 32 : Nat) > u32MAX ∧ alloc (2 ^ 32) (2 ^ 32) = some (2 ^ 32) := by
  refine ⟨by norm_num [u32MAX], ?_⟩
  rw [alloc, if_pos (by norm_num)]

/-- C8 (amended): `alloc len addr` aborts (returns `none`) exactly when the
address of the reserved block exceeds `i64::MAX = 2^63 - 1`; otherwise it
returns that address. The length is not checked against any bound. -/
theorem C8_alloc_abort (len addr : Nat) :
    (alloc len addr = none ↔ addr > 2 ^ 63 - 1) ∧
    (addr ≤ 2 ^ 63 - 1 → alloc len addr = some addr) := by
  constructor
  · constructor
    · intro h
      by_contra hno
      rw [alloc, if_pos (by omega)] at h
      exact Option.noConfusion h
    · intro h
      rw [alloc, if_neg (by omega)]
  · intro h
    rw [alloc, if_pos h]

/-- C8 witness: concrete evaluation at `len = 5`, `addr = 1024`. -/
theorem C8_witness :
    (1024 : Nat) ≤ 2 ^ 63 - 1 ∧ alloc 5 1024 = some 1024 :=
  ⟨by norm_num, (C8_alloc_abort 5 1024).2 (by norm_num)⟩

/-! ### State cache (state.rs)

`State<K>` is generic over the key type; values move through borsh
serialization. The embedding keeps the key type `K` (with decidable
equality, standing for `Hash + Eq`), carries serialized payloads as
`List Nat` (byte vectors), and parametrizes the serializer/deserializer of
the generic value type `V` as explicit functions (`none` = codec failure).

The imported host functions `_put`, `_get`, `_delete` and the host's
storage engine are outside this repository; they are embedded as a host
state `HostSt`: status-code oracles for `_put`/`_delete` (arbitrary `i64`
results), and, modelled from the spec's §4.3/§6 storage contract, a byte
store that a zero-status `put` updates, a zero-status `delete` clears, and
`get` reads (`_get` returns a negative packed pointer exactly when the key
is unavailable, which together with the subsequent `into_bytes` copy-out is
embedded as an `Option (List Nat)`).

Every cache operation additionally returns the list of host-bridge calls
it issued, so "performs no host call" is the statement that this list is
empty. -/

/-- Program identity: an opaque byte sequence (`Program::id()`). -/
abbrev Program := List Nat

/-- One host-bridge boundary call. -/
inductive HostEvent (K : Type)
  | getCall (k : K)
  | putCall (k : K) (v : List Nat)
  | deleteCall (k : K)
  deriving DecidableEq

/-- Host-side state and sentinel oracles (see section comment above). -/
structure HostSt (K : Type) where
  storage : List (K × List Nat)
  putStatus : Program → K → List Nat → Int
  deleteStatus : Program → K → Int

/-- Association-list lookup, modelling `HashMap::get`. -/
def lookupA {K V : Type} [DecidableEq K] : List (K × V) → K → Option V
  | [], _ => none
  | (k', v') :: rest, k => if k' = k then some v' else lookupA rest k

/-- Association-list insert-or-replace, modelling `HashMap::insert`. -/
def insertA {K V : Type} [DecidableEq K] : List (K × V) → K → V → List (K × V)
  | [], k, v => [(k, v)]
  | (k', v') :: rest, k, v =>
    if k' = k then (k, v) :: rest else (k', v') :: insertA rest k v

/-- Association-list removal, modelling `HashMap::remove`. -/
def eraseA {K V : Type} [DecidableEq K] : List (K × V) → K → List (K × V)
  | [], _ => []
  | (k', v') :: rest, k =>
    if k' = k then eraseA rest k else (k', v') :: eraseA rest k

/-- state.rs `Cache<K>`: the two partitions and the flushed marker. -/
structure Cache (K : Type) where
  reads : List (K × List Nat)
  writes : List (K × List Nat)
  flushed : Bool
  deriving DecidableEq

/-- state.rs `State<K>`. -/
structure State (K : Type) where
  program : Program
  cache : Cache K
  deriving DecidableEq

/-- state.rs `State::new`. -/
def State.new {K : Type} (p : Program) : State K :=
  ⟨p, ⟨[], [], false⟩⟩

/-- state.rs `host::put_bytes`: `match _put(caller, key, value)
{ 0 => Ok(()), _ => Err(Error::Write) }`. On the zero status the host's
storage (spec §4.3) records the value. Borsh serialization of the byte
vector being put and the `to_host_ptr` packings cannot fail on the 32-bit
guest target and are elided. -/
def put_bytes {K : Type} [DecidableEq K] (h : HostSt K) (caller : Program)
    (k : K) (v : List Nat) : Except StateError Unit × HostSt K :=
  if h.putStatus caller k v = 0 then
    (Except.ok (), { h with storage := insertA h.storage k v })
  else
    (Except.error StateError.Write, h)

/-- state.rs `host::get_bytes` followed by the caller's `val_ptr < 0` check
and `into_bytes` copy-out: `none` is the negative sentinel, `some bytes`
the host-populated buffer. -/
def get_bytes {K : Type} [DecidableEq K] (h : HostSt K) (caller : Program)
    (k : K) : Option (List Nat) :=
  lookupA h.storage k

/-- state.rs `host::delete_bytes`: `match _delete(caller, key)
{ 0 => Ok(()), _ => Err(Error::Delete) }`; the zero status removes the key
from the host's storage. -/
def delete_bytes {K : Type} [DecidableEq K] (h : HostSt K) (caller : Program)
    (k : K) : Except StateError Unit × HostSt K :=
  if h.deleteStatus caller k = 0 then
    (Except.ok (), { h with storage := eraseA h.storage k })
  else
    (Except.error StateError.Delete, h)

/-- state.rs `State::store`: serialize (`to_vec`, whose failure the source
maps to `Error::Deserialization`), then insert into the `writes` partition.
No host call, no change to `reads` or `flushed`. -/
def State.store {K V : Type} [DecidableEq K] (ser : V → Option (List Nat))
    (st : State K) (k : K) (v : V) : Except StateError Unit × State K :=
  match ser v with
  | none => (Except.error StateError.Deserialization, st)
  | some bytes =>
    (Except.ok (),
      { st with cache := { st.cache with writes := insertA st.cache.writes k bytes } })

/-- state.rs `State::get`: if `reads` holds the key, take the cached bytes
(and re-insert them); otherwise call the host (`get_bytes`), return
`Error::Read` on the negative sentinel, else insert the fetched bytes into
`reads`; finally deserialize, mapping failure to `Error::Deserialization`.
The `writes` partition is never consulted. -/
def State.get {K V : Type} [DecidableEq K] (deser : List Nat → Option V)
    (st : State K) (h : HostSt K) (k : K) :
    Except StateError V × State K × List (HostEvent K) :=
  match lookupA st.cache.reads k with
  | some val =>
    let st' :=
      { st with cache := { st.cache with reads := insertA st.cache.reads k val } }
    match deser val with
    | some v => (Except.ok v, st', [])
    | none => (Except.error StateError.Deserialization, st', [])
  | none =>
    match get_bytes h st.program k with
    | none => (Except.error StateError.Read, st, [HostEvent.getCall k])
    | some bytes =>
      let st' :=
        { st with cache := { st.cache with reads := insertA st.cache.reads k bytes } }
      match deser bytes with
      | some v => (Except.ok v, st', [HostEvent.getCall k])
      | none => (Except.error StateError.Deserialization, st', [HostEvent.getCall k])

/-- state.rs `State::delete`: remove the key from both partitions, then
immediately issue the host delete and return its result. -/
def State.delete {K : Type} [DecidableEq K] (st : State K) (h : HostSt K)
    (k : K) : Except StateError Unit × State K × HostSt K × List (HostEvent K) :=
  let st' :=
    { st with cache :=
        { st.cache with
          writes := eraseA st.cache.writes k
          reads := eraseA st.cache.reads k } }
  let r := delete_bytes h st.program k
  (r.1, st', r.2, [HostEvent.deleteCall k])

/-- The `for (key, value) in self.cache.writes.drain()` loop body of
`State::flush`: puts entries in drain order, stopping at the first
failure. -/
def flushLoop {K : Type} [DecidableEq K] (caller : Program) :
    List (K × List Nat) → HostSt K →
      Except StateError Unit × HostSt K × List (HostEvent K)
  | [], h => (Except.ok (), h, [])
  | (k, v) :: rest, h =>
    match put_bytes h caller k v with
    | (Except.error e, h') => (Except.error e, h', [HostEvent.putCall k v])
    | (Except.ok _, h') =>
      let r := flushLoop caller rest h'
      (r.1, r.2.1, HostEvent.putCall k v :: r.2.2)

/-- state.rs `State::flush`. `HashMap::drain` removes every entry from the
map even when the iterator is dropped early (the documented behavior of
`Drain`), so on the `?` early return the `writes` partition is empty too;
`flushed = true` is only reached on full success. -/
def State.flush {K : Type} [DecidableEq K] (st : State K) (h : HostSt K) :
    Except StateError Unit × State K × HostSt K × List (HostEvent K) :=
  let r := flushLoop st.program st.cache.writes h
  match r.1 with
  | Except.error e =>
    (Except.error e, { st with cache := { st.cache with writes := [] } },
      r.2.1, r.2.2)
  | Except.ok _ =>
    (Except.ok (),
      { st with cache := { st.cache with writes := [], flushed := true } },
      r.2.1, r.2.2)

/-- One session operation, for reachability statements. -/
inductive Op (K V : Type)
  | store (k : K) (v : V)
  | get (k : K)
  | delete (k : K)
  | flush
  deriving DecidableEq

/-- Effect of one operation on the session and host state (results and
events discarded). -/
def runOp {K V : Type} [DecidableEq K] (ser : V → Option (List Nat))
    (deser : List Nat → Option V) (s : State K × HostSt K) :
    Op K V → State K × HostSt K
  | Op.store k v => ((State.store ser s.1 k v).2, s.2)
  | Op.get k => ((State.get deser s.1 s.2 k).2.1, s.2)
  | Op.delete k =>
    let r := State.delete s.1 s.2 k
    (r.2.1, r.2.2.1)
  | Op.flush =>
    let r := State.flush s.1 s.2
    (r.2.1, r.2.2.1)

/-- Run a sequence of operations. -/
def runOps {K V : Type} [DecidableEq K] (ser : V → Option (List Nat))
    (deser : List Nat → Option V) (s : State K × HostSt K)
    (ops : List (Op K V)) : State K × HostSt K :=
  ops.foldl (runOp ser deser) s

/-- Concrete serializer used in witnesses: borsh for `bool`. -/
def serBool : Bool → Option (List Nat) :=
  fun b => some [if b then 1 else 0]

/-- Concrete deserializer used in witnesses: borsh for `bool`. -/
def deserBool : List Nat → Option Bool
  | [0] => some false
  | [1] => some true
  | _ => none

/-- Host fixture builder over `Nat` keys: a storage plus constant
`put`/`delete` status codes. -/
def mkHost (storage : List (Nat × List Nat)) (putS delS : Int) : HostSt Nat :=
  { storage := storage
    putStatus := fun _ _ _ => putS
    deleteStatus := fun _ _ => delS }

/-- Helper: looking up a just-inserted key returns the inserted value. -/
theorem lookupA_insertA_self {K V : Type} [DecidableEq K]
    (m : List (K × V)) (k : K) (v : V) :
    lookupA (insertA m k v) k = some v := by
  induction m with
  | nil => simp [insertA, lookupA]
  | cons kv rest ih =>
    obtain ⟨k', v'⟩ := kv
    by_cases h : k' = k
    · simp [insertA, h, lookupA]
    · simp [insertA, h, lookupA, ih]

/-- Helper: inserting a different key does not affect a lookup. -/
theorem lookupA_insertA_ne {K V : Type} [DecidableEq K]
    (m : List (K × V)) (k k' : K) (v : V) (hne : k' ≠ k) :
    lookupA (insertA m k' v) k = lookupA m k := by
  induction m with
  | nil => simp [insertA, lookupA, hne]
  | cons kv rest ih =>
    obtain ⟨k0, v0⟩ := kv
    by_cases h : k0 = k'
    · subst h
      simp [insertA, lookupA, hne]
    · simp [insertA, h, lookupA, ih]

/-- Helper: erasing a different key does not affect a lookup. -/
theorem lookupA_eraseA_ne {K V : Type} [DecidableEq K]
    (m : List (K × V)) (k k' : K) (hne : k' ≠ k) :
    lookupA (eraseA m k') k = lookupA m k := by
  induction m with
  | nil => simp [eraseA]
  | cons kv rest ih =>
    obtain ⟨k0, v0⟩ := kv
    by_cases h : k0 = k'
    · subst h
      simp [eraseA, lookupA, hne, ih]
    · simp [eraseA, h, lookupA, ih]

/-- Helper: looking up an erased key returns nothing. -/
theorem lookupA_eraseA_self {K V : Type} [DecidableEq K]
    (m : List (K × V)) (k : K) :
    lookupA (eraseA m k) k = none := by
  induction m with
  | nil => simp [eraseA, lookupA]
  | cons kv rest ih =>
    obtain ⟨k', v'⟩ := kv
    by_cases h : k' = k
    · simp [eraseA, h, ih]
    · simp [eraseA, h, lookupA, ih]

/-- Helper: on a reads-cache miss, `State::get` issues exactly one host
`get` call. -/
theorem get_events_of_miss {K V : Type} [DecidableEq K]
    (deser : List Nat → Option V) (st : State K) (h : HostSt K) (k : K)
    (hmiss : lookupA st.cache.reads k = none) :
    (State.get deser st h k).2.2 = [HostEvent.getCall k] := by
  cases hg : get_bytes h st.program k with
  | none => simp [State.get, hmiss, hg]
  | some bytes => cases hd : deser bytes <;> simp [State.get, hmiss, hg, hd]

/-- Helper: a successful `State::get` leaves bytes for the key in the
`reads` partition that deserialize to the returned value. -/
theorem get_ok_cached {K V : Type} [DecidableEq K]
    (deser : List Nat → Option V) (st : State K) (h : HostSt K) (k : K)
    (v : V) (st1 : State K) (evs : List (HostEvent K))
    (hget : State.get deser st h k = (Except.ok v, st1, evs)) :
    ∃ bytes, lookupA st1.cache.reads k = some bytes ∧ deser bytes = some v := by
  cases hr : lookupA st.cache.reads k with
  | some val =>
    cases hd : deser val with
    | some v0 =>
      simp only [State.get, hr, hd, Prod.mk.injEq, Except.ok.injEq] at hget
      obtain ⟨hv, hst, -⟩ := hget
      subst hv
      subst hst
      exact ⟨val, lookupA_insertA_self _ _ _, hd⟩
    | none =>
      simp [State.get, hr, hd] at hget
  | none =>
    cases hg : get_bytes h st.program k with
    | none =>
      simp [State.get, hr, hg] at hget
    | some bytes =>
      cases hd : deser bytes with
      | some v0 =>
        simp only [State.get, hr, hg, hd, Prod.mk.injEq, Except.ok.injEq] at hget
        obtain ⟨hv, hst, -⟩ := hget
        subst hv
        subst hst
        exact ⟨bytes, lookupA_insertA_self _ _ _, hd⟩
      | none =>
        simp [State.get, hr, hg, hd] at hget

/-- Helper: a reads-cache hit whose bytes deserialize yields the decoded
value with no host call. -/
theorem get_hit_deser_some {K V : Type} [DecidableEq K]
    (deser : List Nat → Option V) (st : State K) (h : HostSt K) (k : K)
    (bytes : List Nat) (v : V) (hhit : lookupA st.cache.reads k = some bytes)
    (hdeser : deser bytes = some v) :
    (State.get deser st h k).1 = Except.ok v ∧
    (State.get deser st h k).2.2 = [] := by
  constructor <;> simp [State.get, hhit, hdeser]

/-- Helper: `State::get` (of any key) never removes a cached reads entry:
a hit re-inserts the same bytes, a miss inserts under its own key. -/
theorem get_preserves_reads_entry {K V : Type} [DecidableEq K]
    (deser : List Nat → Option V) (st : State K) (h : HostSt K) (k k' : K)
    (bytes : List Nat) (hk : lookupA st.cache.reads k = some bytes) :
    lookupA (State.get deser st h k').2.1.cache.reads k = some bytes := by
  by_cases hkk : k' = k
  · subst hkk
    cases hd : deser bytes with
    | some v0 => simp [State.get, hk, hd, lookupA_insertA_self]
    | none => simp [State.get, hk, hd, lookupA_insertA_self]
  · cases hr : lookupA st.cache.reads k' with
    | some val =>
      cases hd : deser val with
      | some v0 => simp [State.get, hr, hd, lookupA_insertA_ne _ _ _ _ hkk, hk]
      | none => simp [State.get, hr, hd, lookupA_insertA_ne _ _ _ _ hkk, hk]
    | none =>
      cases hg : get_bytes h st.program k' with
      | none => simp [State.get, hr, hg, hk]
      | some b =>
        cases hd : deser b with
        | some v0 => simp [State.get, hr, hg, hd, lookupA_insertA_ne _ _ _ _ hkk, hk]
        | none => simp [State.get, hr, hg, hd, lookupA_insertA_ne _ _ _ _ hkk, hk]

/-- Helper: `State::store` never touches the `reads` partition. -/
theorem store_preserves_reads {K V : Type} [DecidableEq K]
    (ser : V → Option (List Nat)) (st : State K) (k : K) (v : V) :
    (State.store ser st k v).2.cache.reads = st.cache.reads := by
  cases hs : ser v <;> simp [State.store, hs]

/-- Helper: `State::flush` never touches the `reads` partition. -/
theorem flush_preserves_reads {K : Type} [DecidableEq K] (st : State K)
    (h : HostSt K) :
    (State.flush st h).2.1.cache.reads = st.cache.reads := by
  cases hr : (flushLoop st.program st.cache.writes h).1 <;>
    simp [State.flush, hr]

/-- Helper: a cached reads entry survives any operation sequence that does
not delete its key. -/
theorem reads_entry_preserved {K V : Type} [DecidableEq K]
    (ser : V → Option (List Nat)) (deser : List Nat → Option V) (k : K)
    (bytes : List Nat) :
    ∀ (ops : List (Op K V)) (s : State K × HostSt K),
      Op.delete k ∉ ops →
      lookupA s.1.cache.reads k = some bytes →
      lookupA (runOps ser deser s ops).1.cache.reads k = some bytes := by
  intro ops
  induction ops with
  | nil => intro s _ hk; exact hk
  | cons op rest ih =>
    intro s hnotin hk
    have hnotin' : Op.delete k ∉ rest := fun hc => hnotin (List.mem_cons_of_mem _ hc)
    have hstep : lookupA (runOp ser deser s op).1.cache.reads k = some bytes := by
      cases op with
      | store k' v =>
        simpa [runOp, store_preserves_reads] using hk
      | get k' =>
        exact get_preserves_reads_entry deser s.1 s.2 k k' bytes hk
      | delete k' =>
        have hne : k' ≠ k := by
          intro hc
          subst hc
          exact hnotin (List.mem_cons_self _ _)
        simpa [runOp, State.delete, lookupA_eraseA_ne _ _ _ hne] using hk
      | flush =>
        simpa [runOp, flush_preserves_reads] using hk
    simpa [runOps, List.foldl_cons] using ih (runOp ser deser s op) hnotin' hstep

/-- C6: once `get(k)` has succeeded in a session, a later `get(k)` — after
any further operations of the session that do not delete `k` — is served
from the reads cache: it performs no host-bridge call and returns a value
identical to the first result. -/
theorem C6_cache_read_through {K V : Type} [DecidableEq K]
    (ser : V → Option (List Nat)) (deser : List Nat → Option V)
    (st : State K) (h : HostSt K) (k : K) (v : V) (st1 : State K)
    (evs : List (HostEvent K)) (ops : List (Op K V))
    (hget : State.get deser st h k = (Except.ok v, st1, evs))
    (hnodel : Op.delete k ∉ ops) :
    (State.get deser (runOps ser deser (st1, h) ops).1
        (runOps ser deser (st1, h) ops).2 k).1 = Except.ok v ∧
    (State.get deser (runOps ser deser (st1, h) ops).1
        (runOps ser deser (st1, h) ops).2 k).2.2 = [] := by
  obtain ⟨bytes, hcached, hdeser⟩ :=
    get_ok_cached deser st h k v st1 evs hget
  have hfinal :=
    reads_entry_preserved ser deser k bytes ops (st1, h) hnodel hcached
  exact get_hit_deser_some deser _ _ k bytes v hfinal hdeser

/-- C6 fixtures: session before / after the first successful `get`. -/
def stC6 : State Nat :=
  State.new [7]

/-- C6 fixtures: the session state after the first `get` cached `[1]`. -/
def stC6' : State Nat :=
  ⟨[7], ⟨[(1, [1])], [], false⟩⟩

/-- C6 fixtures: host storing `[1]` (borsh for `true`) at key `1`. -/
def hostC6 : HostSt Nat :=
  mkHost [(1, [1])] 0 0

/-- C6 witness: a concrete first `get` at key `1`, an intervening
`store 1 false`, then the second `get` still answers `true` from the
cache with no host call. -/
theorem C6_witness :
    State.get deserBool stC6 hostC6 1 =
      (Except.ok true, stC6', [HostEvent.getCall 1]) ∧
    Op.delete 1 ∉ ([Op.store 1 false] : List (Op Nat Bool)) ∧
    ((State.get deserBool
        (runOps serBool deserBool (stC6', hostC6) [Op.store 1 false]).1
        (runOps serBool deserBool (stC6', hostC6) [Op.store 1 false]).2 1).1 =
      Except.ok true ∧
      (State.get deserBool
        (runOps serBool deserBool (stC6', hostC6) [Op.store 1 false]).1
        (runOps serBool deserBool (stC6', hostC6) [Op.store 1 false]).2 1).2.2 =
      []) :=
  ⟨rfl, by decide,
    C6_cache_read_through serBool deserBool stC6 hostC6 1 true stC6'
      [HostEvent.getCall 1] [Op.store 1 false] rfl (by decide)⟩

/-- C1 fails as stated: in a fresh session over a host that already stores
`[0]` (borsh for `false`) at key `1`, `store 1 true` succeeds, yet the
following `get 1` issues a host-bridge `get` and returns `false`, not the
stored `true` — `State::get` never consults the `writes` partition. -/
theorem C1_counterexample :
    (State.store serBool (State.new [7] : State Nat) 1 true).1 =
      Except.ok () ∧
    (State.get deserBool (State.store serBool (State.new [7] : State Nat) 1 true).2
        (mkHost [(1, [0])] 0 0) 1).1 = Except.ok false ∧
    (State.get deserBool (State.store serBool (State.new [7] : State Nat) 1 true).2
        (mkHost [(1, [0])] 0 0) 1).2.2 = [HostEvent.getCall 1] ∧
    false ≠ true :=
  ⟨rfl, rfl, rfl, by decide⟩

/-- C1 (amended): after `store(k, v)` succeeds the serialized value is
staged in the `writes` partition and the `reads` partition is unchanged;
`get` does not consult the `writes` partition, so when `k` is not in the
`reads` cache a following `get(k)` issues a host-bridge `get` (and returns
whatever the host supplies, not necessarily `v`). -/
theorem C1_store_staged {K V : Type} [DecidableEq K]
    (ser : V → Option (List Nat)) (deser : List Nat → Option V)
    (st : State K) (h : HostSt K) (k : K) (v : V) (bytes : List Nat)
    (hser : ser v = some bytes)
    (hmiss : lookupA st.cache.reads k = none) :
    (State.store ser st k v).1 = Except.ok () ∧
    lookupA (State.store ser st k v).2.cache.writes k = some bytes ∧
    (State.store ser st k v).2.cache.reads = st.cache.reads ∧
    (State.get deser (State.store ser st k v).2 h k).2.2 =
      [HostEvent.getCall k] := by
  have hstore : State.store ser st k v =
      (Except.ok (),
        { st with cache :=
            { st.cache with writes := insertA st.cache.writes k bytes } }) := by
    unfold State.store
    rw [hser]
  rw [hstore]
  refine ⟨rfl, lookupA_insertA_self _ _ _, rfl, ?_⟩
  exact get_events_of_miss deser _ h k hmiss

/-- C1 witness: concrete staging of `true` at key `1` in a fresh session. -/
theorem C1_witness :
    serBool true = some [1] ∧
    lookupA (State.new [7] : State Nat).cache.reads 1 = none ∧
    ((State.store serBool (State.new [7] : State Nat) 1 true).1 =
        Except.ok () ∧
      lookupA (State.store serBool (State.new [7] : State Nat) 1 true).2.cache.writes 1 =
        some [1] ∧
      (State.store serBool (State.new [7] : State Nat) 1 true).2.cache.reads =
        (State.new [7] : State Nat).cache.reads ∧
      (State.get deserBool
          (State.store serBool (State.new [7] : State Nat) 1 true).2
          (mkHost [] 0 0) 1).2.2 = [HostEvent.getCall 1]) :=
  ⟨rfl, rfl,
    C1_store_staged serBool deserBool (State.new [7]) (mkHost [] 0 0)
      1 true [1] rfl rfl⟩

/-- Helper: a reads-cache hit whose bytes fail to deserialize yields
`Error::Deserialization` with no host call. -/
theorem get_hit_deser_none {K V : Type} [DecidableEq K]
    (deser : List Nat → Option V) (st : State K) (h : HostSt K) (k : K)
    (bytes : List Nat) (hhit : lookupA st.cache.reads k = some bytes)
    (hdeser : deser bytes = none) :
    (State.get deser st h k).1 = Except.error StateError.Deserialization ∧
    (State.get deser st h k).2.2 = [] := by
  constructor <;> simp [State.get, hhit, hdeser]

/-- C10: when `State::get` obtains a byte payload (reads cache hit, or a
successful host `get`) that fails to deserialize, it returns
`Error::Deserialization` but still inserts the bytes into the `reads`
partition, so a repeated `get` of the same key hits the cache, repeats the
same error and performs no host call. -/
theorem C10_deser_error_caches {K V : Type} [DecidableEq K]
    (deser : List Nat → Option V) (st : State K) (h : HostSt K) (k : K)
    (bytes : List Nat)
    (hbytes : lookupA st.cache.reads k = some bytes ∨
      (lookupA st.cache.reads k = none ∧ get_bytes h st.program k = some bytes))
    (hdeser : deser bytes = none) :
    (State.get deser st h k).1 = Except.error StateError.Deserialization ∧
    lookupA (State.get deser st h k).2.1.cache.reads k = some bytes ∧
    (State.get deser (State.get deser st h k).2.1 h k).1 =
      Except.error StateError.Deserialization ∧
    (State.get deser (State.get deser st h k).2.1 h k).2.2 = [] := by
  have hmain : (State.get deser st h k).1 =
        Except.error StateError.Deserialization ∧
      (State.get deser st h k).2.1.cache.reads =
        insertA st.cache.reads k bytes := by
    rcases hbytes with hhit | ⟨hmiss, hhost⟩
    · constructor
      · simp [State.get, hhit, hdeser]
      · simp [State.get, hhit, hdeser]
    · constructor
      · simp [State.get, hmiss, hhost, hdeser]
      · simp [State.get, hmiss, hhost, hdeser]
  obtain ⟨hres, hreads⟩ := hmain
  have hlook : lookupA (State.get deser st h k).2.1.cache.reads k = some bytes := by
    rw [hreads]
    exact lookupA_insertA_self _ _ _
  exact ⟨hres, hlook, (get_hit_deser_none deser _ h k bytes hlook hdeser).1,
    (get_hit_deser_none deser _ h k bytes hlook hdeser).2⟩

/-- C10 witness: host bytes `[7]` at key `1` do not decode as a `bool`. -/
theorem C10_witness :
    (lookupA (State.new [7] : State Nat).cache.reads 1 = some [7] ∨
      (lookupA (State.new [7] : State Nat).cache.reads 1 = none ∧
        get_bytes (mkHost [(1, [7])] 0 0) (State.new [7] : State Nat).program 1 =
          some [7])) ∧
    deserBool [7] = none ∧
    ((State.get deserBool (State.new [7] : State Nat) (mkHost [(1, [7])] 0 0) 1).1 =
        Except.error StateError.Deserialization ∧
      lookupA (State.get deserBool (State.new [7] : State Nat)
          (mkHost [(1, [7])] 0 0) 1).2.1.cache.reads 1 = some [7] ∧
      (State.get deserBool
          (State.get deserBool (State.new [7] : State Nat)
            (mkHost [(1, [7])] 0 0) 1).2.1 (mkHost [(1, [7])] 0 0) 1).1 =
        Except.error StateError.Deserialization ∧
      (State.get deserBool
          (State.get deserBool (State.new [7] : State Nat)
            (mkHost [(1, [7])] 0 0) 1).2.1 (mkHost [(1, [7])] 0 0) 1).2.2 = []) :=
  ⟨Or.inr ⟨rfl, rfl⟩, rfl,
    C10_deser_error_caches deserBool (State.new [7]) (mkHost [(1, [7])] 0 0)
      1 [7] (Or.inr ⟨rfl, rfl⟩) rfl⟩

/-- Helper: the flush loop succeeds exactly when the host accepts every
staged put; note a successful put only changes `storage`, never the status
oracles. -/
theorem flushLoop_ok_iff {K : Type} [DecidableEq K] (p : Program) :
    ∀ (l : List (K × List Nat)) (h : HostSt K),
      (flushLoop p l h).1 = Except.ok () ↔
        ∀ kv ∈ l, h.putStatus p kv.1 kv.2 = 0 := by
  intro l
  induction l with
  | nil => intro h; simp [flushLoop]
  | cons kv rest ih =>
    intro h
    obtain ⟨k, v⟩ := kv
    by_cases hp : h.putStatus p k v = 0
    · simp [flushLoop, put_bytes, hp, ih]
    · simp [flushLoop, put_bytes, hp]

/-- Helper: on full success the flush loop issues exactly one put per
staged entry, in order. -/
theorem flushLoop_events_ok {K : Type} [DecidableEq K] (p : Program) :
    ∀ (l : List (K × List Nat)) (h : HostSt K),
      (flushLoop p l h).1 = Except.ok () →
        (flushLoop p l h).2.2 =
          l.map (fun kv => HostEvent.putCall kv.1 kv.2) := by
  intro l
  induction l with
  | nil => intro h _; simp [flushLoop]
  | cons kv rest ih =>
    intro h hok
    obtain ⟨k, v⟩ := kv
    by_cases hp : h.putStatus p k v = 0
    · simp only [flushLoop, put_bytes, hp, if_pos] at hok ⊢
      simp only [List.map_cons, List.cons.injEq, true_and]
      exact ih _ hok
    · simp [flushLoop, put_bytes, hp] at hok

/-- Helper: the only failure the flush loop surfaces is `Error::Write`. -/
theorem flushLoop_error_write {K : Type} [DecidableEq K] (p : Program) :
    ∀ (l : List (K × List Nat)) (h : HostSt K) (e : StateError),
      (flushLoop p l h).1 = Except.error e → e = StateError.Write := by
  intro l
  induction l with
  | nil => intro h e he; simp [flushLoop] at he
  | cons kv rest ih =>
    intro h e he
    obtain ⟨k, v⟩ := kv
    by_cases hp : h.putStatus p k v = 0
    · simp only [flushLoop, put_bytes, hp, if_pos] at he
      exact ih _ e he
    · simp [flushLoop, put_bytes, hp] at he
      exact he.symm

/-- C2 (amended): `flush` issues one host put per staged entry, in drain
order, stopping at the first failure; it succeeds exactly when the host
accepts every staged put; the surfaced failure is `Error::Write`; but the
`writes` partition is left empty in every case — `HashMap::drain` removes
the entries that were never put as well, so nothing remains for a retry —
and only on full success is the session marked flushed (on failure the
marker keeps its previous value). -/
theorem C2_flush_drain {K : Type} [DecidableEq K] (st : State K)
    (h : HostSt K) :
    (State.flush st h).2.1.cache.writes = [] ∧
    ((State.flush st h).1 = Except.ok () ↔
      ∀ kv ∈ st.cache.writes, h.putStatus st.program kv.1 kv.2 = 0) ∧
    ((State.flush st h).1 = Except.ok () →
      (State.flush st h).2.1.cache.flushed = true ∧
      (State.flush st h).2.2.2 =
        st.cache.writes.map (fun kv => HostEvent.putCall kv.1 kv.2)) ∧
    (∀ e, (State.flush st h).1 = Except.error e →
      e = StateError.Write ∧
      (State.flush st h).2.1.cache.flushed = st.cache.flushed) := by
  cases hr : (flushLoop st.program st.cache.writes h).1 with
  | ok u =>
    cases u
    refine ⟨?_, ?_, ?_, ?_⟩
    · simp [State.flush, hr]
    · have hall := (flushLoop_ok_iff st.program st.cache.writes h).mp hr
      constructor
      · intro _
        exact hall
      · intro _
        simp [State.flush, hr]
    · intro _
      constructor
      · simp [State.flush, hr]
      · simp only [State.flush, hr]
        exact flushLoop_events_ok st.program st.cache.writes h hr
    · intro e he
      simp [State.flush, hr] at he
  | error e0 =>
    refine ⟨?_, ?_, ?_, ?_⟩
    · simp [State.flush, hr]
    · constructor
      · intro hok
        simp [State.flush, hr] at hok
      · intro hall
        have := (flushLoop_ok_iff st.program st.cache.writes h).mpr hall
        rw [hr] at this
        exact absurd this (by simp)
    · intro hok
      simp [State.flush, hr] at hok
    · intro e he
      simp only [State.flush, hr] at he
      have he0 : e0 = e := by
        simpa using he
      subst he0
      refine ⟨flushLoop_error_write st.program st.cache.writes h e0 hr, ?_⟩
      simp [State.flush, hr]

/-- C2 fixtures: a session with two staged writes. -/
def stC2 : State Nat :=
  ⟨[7], ⟨[], [(1, [1]), (2, [0])], false⟩⟩

/-- C2 fails as stated: against a host that rejects every put (status `1`),
`flush` fails with `Write` after attempting only the first entry — the
events show one put — yet the `writes` partition ends up empty: the entry
`(2, [0])` was never put and did not remain for a retry (`drain` removed
it). -/
theorem C2_counterexample :
    (State.flush stC2 (mkHost [] 1 0)).1 = Except.error StateError.Write ∧
    (State.flush stC2 (mkHost [] 1 0)).2.2.2 = [HostEvent.putCall 1 [1]] ∧
    (State.flush stC2 (mkHost [] 1 0)).2.1.cache.writes = [] ∧
    stC2.cache.writes = [(1, [1]), (2, [0])] :=
  ⟨rfl, rfl, rfl, rfl⟩

/-- C2 witness: a fully successful flush of the same two staged writes. -/
theorem C2_witness :
    (State.flush stC2 (mkHost [] 0 0)).1 = Except.ok () ∧
    (State.flush stC2 (mkHost [] 0 0)).2.1.cache.flushed = true ∧
    (State.flush stC2 (mkHost [] 0 0)).2.2.2 =
      stC2.cache.writes.map (fun kv => HostEvent.putCall kv.1 kv.2) ∧
    (State.flush stC2 (mkHost [] 0 0)).2.1.cache.writes = [] := by
  have h := C2_flush_drain stC2 (mkHost [] 0 0)
  have hok : (State.flush stC2 (mkHost [] 0 0)).1 = Except.ok () :=
    h.2.1.mpr (by decide)
  exact ⟨hok, (h.2.2.1 hok).1, (h.2.2.1 hok).2, h.1⟩

/-- C3 failing run: `store 1 true`, a fully successful `flush`, then
`store 1 false`. -/
def opsC3 : List (Op Nat Bool) :=
  [Op.store 1 true, Op.flush, Op.store 1 false]

/-- C3: the code violates the claimed invariant. After a successful
explicit `flush` a further `store` makes the `writes` partition non-empty
again, but `State::store` never clears `cache.flushed`, so the session
reaches a state with `flushed = true` and a staged write — which `Drop`
will then silently skip, losing the write. -/
theorem C3_flushed_marker_bug :
    (runOps serBool deserBool (State.new [7], mkHost [] 0 0) opsC3).1.cache.flushed =
      true ∧
    (runOps serBool deserBool (State.new [7], mkHost [] 0 0) opsC3).1.cache.writes =
      [(1, [0])] ∧
    ([(1, [0])] : List (Nat × List Nat)) ≠ [] :=
  ⟨rfl, rfl, by decide⟩

/-- C7 fixtures: a session that has previously read key `1` (bytes `[1]`,
borsh for `true`) into its reads cache. -/
def stC7 : State Nat :=
  ⟨[7], ⟨[(1, [1])], [], false⟩⟩

/-- C7 fails as stated: the host still stores `[1]` at key `1` and rejects
the delete (status `1`). `delete 1` returns `Error::Delete` and clears the
local caches, but the very next `get 1` refetches from the host and
returns `true` — the value that predates the delete. -/
theorem C7_counterexample :
    (State.delete stC7 (mkHost [(1, [1])] 0 1) 1).1 =
      Except.error StateError.Delete ∧
    lookupA (State.delete stC7 (mkHost [(1, [1])] 0 1) 1).2.2.1.storage 1 =
      some [1] ∧
    (State.get deserBool (State.delete stC7 (mkHost [(1, [1])] 0 1) 1).2.1
        (State.delete stC7 (mkHost [(1, [1])] 0 1) 1).2.2.1 1).1 =
      Except.ok true :=
  ⟨rfl, rfl, rfl⟩

/-- C7 (amended): `delete(k)` removes `k` from both cache partitions and
immediately issues exactly one host delete; on a zero status the call
succeeds and the host entry is gone, on any other status it returns
`Error::Delete` and the host state is untouched; a following `get(k)` is
never served from the session's cache — it always goes back to the host,
so after a failed remote delete it can return the pre-delete value. -/
theorem C7_delete_visibility {K V : Type} [DecidableEq K]
    (deser : List Nat → Option V) (st : State K) (h : HostSt K) (k : K) :
    lookupA (State.delete st h k).2.1.cache.reads k = none ∧
    lookupA (State.delete st h k).2.1.cache.writes k = none ∧
    (State.delete st h k).2.2.2 = [HostEvent.deleteCall k] ∧
    (h.deleteStatus st.program k = 0 →
      (State.delete st h k).1 = Except.ok () ∧
      lookupA (State.delete st h k).2.2.1.storage k = none) ∧
    (h.deleteStatus st.program k ≠ 0 →
      (State.delete st h k).1 = Except.error StateError.Delete ∧
      (State.delete st h k).2.2.1 = h) ∧
    (State.get deser (State.delete st h k).2.1 (State.delete st h k).2.2.1 k).2.2 =
      [HostEvent.getCall k] := by
  refine ⟨?_, ?_, rfl, ?_, ?_, ?_⟩
  · exact lookupA_eraseA_self _ _
  · exact lookupA_eraseA_self _ _
  · intro h0
    constructor
    · simp [State.delete, delete_bytes, h0]
    · simp only [State.delete, delete_bytes, h0, if_pos]
      exact lookupA_eraseA_self _ _
  · intro h0
    constructor
    · simp [State.delete, delete_bytes, h0]
    · simp [State.delete, delete_bytes, h0]
  · exact get_events_of_miss deser _ _ k (lookupA_eraseA_self _ _)

/-- C7 witness: a successful delete of key `1`. -/
theorem C7_witness :
    (mkHost [(1, [1])] 0 0).deleteStatus (stC7.program) 1 = 0 ∧
    lookupA (State.delete stC7 (mkHost [(1, [1])] 0 0) 1).2.1.cache.reads 1 =
      none ∧
    ((State.delete stC7 (mkHost [(1, [1])] 0 0) 1).1 = Except.ok () ∧
      lookupA (State.delete stC7 (mkHost [(1, [1])] 0 0) 1).2.2.1.storage 1 =
        none) ∧
    (State.get deserBool (State.delete stC7 (mkHost [(1, [1])] 0 0) 1).2.1
        (State.delete stC7 (mkHost [(1, [1])] 0 0) 1).2.2.1 1).2.2 =
      [HostEvent.getCall 1] := by
  have h := C7_delete_visibility deserBool stC7 (mkHost [(1, [1])] 0 0) 1
  exact ⟨rfl, h.1, h.2.2.2.1 rfl, h.2.2.2.2.2⟩

/-- C9: the host bridge uses one zero-means-success convention for both
mutating calls: `put_bytes` succeeds exactly when the imported `put`
returns status `0` and maps every other status to `Error::Write`;
`delete_bytes` succeeds exactly when the imported `delete` returns `0` and
maps every other status to `Error::Delete`. -/
theorem C9_sentinel_convention {K : Type} [DecidableEq K] (h : HostSt K)
    (p : Program) (k : K) (v : List Nat) :
    ((put_bytes h p k v).1 = Except.ok () ↔ h.putStatus p k v = 0) ∧
    (h.putStatus p k v ≠ 0 →
      (put_bytes h p k v).1 = Except.error StateError.Write) ∧
    ((delete_bytes h p k).1 = Except.ok () ↔ h.deleteStatus p k = 0) ∧
    (h.deleteStatus p k ≠ 0 →
      (delete_bytes h p k).1 = Except.error StateError.Delete) := by
  by_cases hp : h.putStatus p k v = 0 <;> by_cases hd : h.deleteStatus p k = 0 <;>
    simp [put_bytes, delete_bytes, hp, hd]

/-- C9 witness: a host whose `put` reports `0` and whose `delete` reports
`1`. -/
theorem C9_witness :
    ((put_bytes (mkHost [] 0 1) [9] 1 [2]).1 = Except.ok () ↔
      (mkHost [] 0 1).putStatus [9] 1 [2] = 0) ∧
    (mkHost [] 0 1).deleteStatus [9] 1 ≠ 0 ∧
    (delete_bytes (mkHost [] 0 1) [9] 1).1 = Except.error StateError.Delete := by
  have h := C9_sentinel_convention (mkHost [] 0 1) [9] 1 [2]
  exact ⟨h.1, by decide, h.2.2.2 (by decide)⟩

end Wasm
